import Mathlib

/-
Verification of the p2p-node-handshake (Tezos) handshake core.

Shallow embedding of the repository's Rust sources:
  - src/crypto/nonce.rs        (Nonce: 12 big-endian u16 words, increment, get_bytes)
  - src/crypto/key.rs          (key size checks, generate_nonces)
  - src/crypto/peer_crypto.rs  (PeerCrypto session state, encrypt/decrypt)
  - src/msgs/ack.rs            (AckStatus wire codec)
  - src/msgs/metadata.rs       (MetadataMessage)
  - src/msgs/connection.rs     (ConnectionMessage, NetworkVersion)
  - src/p2p/peer.rs            (handshake steps, recv_msg, msg_bytes_to_raw)

Bytes are modelled as natural numbers (< 256 where wellformedness matters),
byte buffers as lists; machine-integer truncation is explicit (% 2^16, % 2^64).
-/

/-! # Nonce (src/crypto/nonce.rs)

A Nonce stores 12 sequential 16-bit words, read big-endian from 24 bytes. -/

structure Nonce where
  value : List Nat
deriving DecidableEq, Repr

/-- Big-endian pairing of bytes into 16-bit words (BigEndian::read_u16_into). -/
def bytesToWords : List Nat → List Nat
  | b0 :: b1 :: rest => (b0 * 256 + b1) :: bytesToWords rest
  | _ => []

/-- Nonce::new — reinterpret 24 bytes as 12 big-endian 16-bit words. -/
def Nonce.new (bytes : List Nat) : Nonce :=
  ⟨bytesToWords bytes⟩

/-- Nonce::get_bytes — write each 16-bit word back as two big-endian bytes
(BigEndian::write_u16_into). -/
def Nonce.get_bytes (n : Nonce) : List Nat :=
  n.value.flatMap (fun w => [w / 256, w % 256])

/-- The increment loop of Nonce::increment, acting on the reversed
(little-endian, least-significant-word-first) word list: add 1 to the first
word; while a word overflows 16 bits, write the truncated word and carry into
the next; carry out of the last word is dropped. -/
def incWordsLE : List Nat → List Nat
  | [] => []
  | w :: ws =>
    if w + 1 < 65536 then (w + 1) :: ws
    else (w + 1) % 65536 :: incWordsLE ws

/-- Nonce::increment — big-endian multi-limb increment starting at the last
word, propagating carries leftward, dropping overflow past the first word. -/
def Nonce.increment (n : Nonce) : Nonce :=
  ⟨(incWordsLE n.value.reverse).reverse⟩

/-- Big-endian value of a byte list. -/
def bytesBEtoNat (bs : List Nat) : Nat :=
  bs.foldl (fun acc b => acc * 256 + b) 0

/-- Big-endian value of a 16-bit-word list. -/
def wordsBEtoNat (ws : List Nat) : Nat :=
  ws.foldl (fun acc w => acc * 65536 + w) 0

/-- Little-endian value of a 16-bit-word list. -/
def wordsLEtoNat : List Nat → Nat
  | [] => 0
  | w :: ws => w + 65536 * wordsLEtoNat ws

/-! # Blake2b-256 digest

Modelled from the spec: the repository's src/crypto/blake2b.rs (re-exported as
digest_256 and used by generate_nonces) is not among the provided sources; the
spec names the function "Blake2b-256", so the standard Blake2b algorithm
(RFC 7693) with a 32-byte digest and no key is modelled here. 64-bit words are
naturals with explicit % 2^64 truncation. -/

/-- Blake2b initialization vector (the 8 words of the SHA-512 IV). -/
def blakeIV : List Nat :=
  [0x6a09e667f3bcc908, 0xbb67ae8584caa73b, 0x3c6ef372fe94f82b, 0xa54ff53a5f1d36f1,
   0x510e527fade682d1, 0x9b05688c2b3e6c1f, 0x1f83d9abfb41bd6b, 0x5be0cd19137e2179]

/-- Blake2b message-word permutation table, one row per round (rounds 10 and
11 reuse rows 0 and 1). -/
def blakeSigma : List (List Nat) :=
  [[0, 1, 2, 3, 4, 5, 6, 7, 8, 9, 10, 11, 12, 13, 14, 15],
   [14, 10, 4, 8, 9, 15, 13, 6, 1, 12, 0, 2, 11, 7, 5, 3],
   [11, 8, 12, 0, 5, 2, 15, 13, 10, 14, 3, 6, 7, 1, 9, 4],
   [7, 9, 3, 1, 13, 12, 11, 14, 2, 6, 5, 10, 4, 0, 15, 8],
   [9, 0, 5, 7, 2, 4, 10, 15, 14, 1, 11, 12, 6, 8, 3, 13],
   [2, 12, 6, 10, 0, 11, 8, 3, 4, 13, 7, 5, 15, 14, 1, 9],
   [12, 5, 1, 15, 14, 13, 4, 10, 0, 7, 6, 3, 9, 2, 8, 11],
   [13, 11, 7, 14, 12, 1, 3, 9, 5, 0, 15, 4, 8, 6, 2, 10],
   [6, 15, 14, 9, 11, 3, 0, 8, 12, 2, 13, 7, 1, 4, 10, 5],
   [10, 2, 8, 4, 7, 6, 1, 5, 15, 11, 9, 14, 3, 12, 13, 0],
   [0, 1, 2, 3, 4, 5, 6, 7, 8, 9, 10, 11, 12, 13, 14, 15],
   [14, 10, 4, 8, 9, 15, 13, 6, 1, 12, 0, 2, 11, 7, 5, 3]]

/-- Rotate a 64-bit word right by n bits. -/
def rotr64 (x n : Nat) : Nat :=
  ((x >>> n) ||| (x <<< (64 - n))) % (2 ^ 64)

/-- The Blake2b G mixing function applied to working-vector entries
ia, ib, ic, idx with message words x, y. -/
def blakeG (v : List Nat) (ia ib ic idx x y : Nat) : List Nat :=
  let a := v.getD ia 0
  let b := v.getD ib 0
  let c := v.getD ic 0
  let d := v.getD idx 0
  let a := (a + b + x) % (2 ^ 64)
  let d := rotr64 (Nat.xor d a) 32
  let c := (c + d) % (2 ^ 64)
  let b := rotr64 (Nat.xor b c) 24
  let a := (a + b + y) % (2 ^ 64)
  let d := rotr64 (Nat.xor d a) 16
  let c := (c + d) % (2 ^ 64)
  let b := rotr64 (Nat.xor b c) 63
  (((v.set ia a).set ib b).set ic c).set idx d

/-- One Blake2b round: eight G applications with message words selected by a
sigma row s. -/
def blakeRound (m : List Nat) (v : List Nat) (s : List Nat) : List Nat :=
  let mw := fun i => m.getD (s.getD i 0) 0
  let v := blakeG v 0 4 8 12 (mw 0) (mw 1)
  let v := blakeG v 1 5 9 13 (mw 2) (mw 3)
  let v := blakeG v 2 6 10 14 (mw 4) (mw 5)
  let v := blakeG v 3 7 11 15 (mw 6) (mw 7)
  let v := blakeG v 0 5 10 15 (mw 8) (mw 9)
  let v := blakeG v 1 6 11 12 (mw 10) (mw 11)
  let v := blakeG v 2 7 8 13 (mw 12) (mw 13)
  let v := blakeG v 3 4 9 14 (mw 14) (mw 15)
  v

/-- The Blake2b compression function F: state h (8 words), message block m
(16 words), byte offset t, final-block flag. -/
def blakeCompress (h : List Nat) (m : List Nat) (t : Nat) (last : Bool) : List Nat :=
  let v := h ++ blakeIV
  let v := v.set 12 (Nat.xor (v.getD 12 0) (t % (2 ^ 64)))
  let v := v.set 13 (Nat.xor (v.getD 13 0) ((t / (2 ^ 64)) % (2 ^ 64)))
  let v := if last then v.set 14 (Nat.xor (v.getD 14 0) (2 ^ 64 - 1)) else v
  let v := blakeSigma.foldl (fun v s => blakeRound m v s) v
  (List.range 8).map (fun i => Nat.xor (h.getD i 0) (Nat.xor (v.getD i 0) (v.getD (i + 8) 0)))

/-- Little-endian 64-bit word from (up to) 8 bytes. -/
def le64 (bs : List Nat) : Nat :=
  bs.foldr (fun b acc => b + acc * 256) 0

/-- Split a 128-byte block into 16 little-endian 64-bit words. -/
def toWords16 (block : List Nat) : List Nat :=
  (List.range 16).map (fun i => le64 ((block.drop (8 * i)).take 8))

/-- A message block zero-padded to 128 bytes. -/
def padBlock (msg : List Nat) : List Nat :=
  msg ++ List.replicate (128 - msg.length) 0

/-- The Blake2b block loop: process full 128-byte blocks with the running
byte count and a false final flag, then the final (zero-padded) block with the
total byte count and a true final flag. Structural recursion on fuel (one unit
per consumed byte block suffices). -/
def blakeLoop (fuel : Nat) (h : List Nat) (msg : List Nat) (t : Nat) : List Nat :=
  match fuel with
  | 0 => blakeCompress h (toWords16 (padBlock msg)) (t + msg.length) true
  | fuel + 1 =>
    if msg.length ≤ 128 then
      blakeCompress h (toWords16 (padBlock msg)) (t + msg.length) true
    else
      blakeLoop fuel (blakeCompress h (toWords16 (msg.take 128)) (t + 128) false)
        (msg.drop 128) (t + 128)

/-- Little-endian 8-byte serialization of a 64-bit word. -/
def toBytesLE8 (w : Nat) : List Nat :=
  [w % 256, w / 256 % 256, w / 256 ^ 2 % 256, w / 256 ^ 3 % 256,
   w / 256 ^ 4 % 256, w / 256 ^ 5 % 256, w / 256 ^ 6 % 256, w / 256 ^ 7 % 256]

/-- Modelled from the spec: Blake2b-256 (unkeyed, 32-byte digest) of a byte
sequence, standing in for the repository's blake2b::digest_256. -/
def digest_256 (msg : List Nat) : List Nat :=
  let h0 := blakeIV.set 0 (Nat.xor (blakeIV.getD 0 0) 0x01010020)
  let h := blakeLoop msg.length h0 msg 0
  List.take 32 (h.flatMap toBytesLE8)

/-! # Nonce-pair derivation (src/crypto/key.rs) -/

/-- The byte string "Init -> Resp" (INIT_TO_RESP_SEED). -/
def INIT_TO_RESP_SEED : List Nat :=
  [73, 110, 105, 116, 32, 45, 62, 32, 82, 101, 115, 112]

/-- The byte string "Resp -> Init" (RESP_TO_INIT_SEED). -/
def RESP_TO_INIT_SEED : List Nat :=
  [82, 101, 115, 112, 32, 45, 62, 32, 73, 110, 105, 116]

/-- Pair of local/remote nonces. -/
structure NoncePair where
  «local» : Nonce
  remote : Nonce
deriving DecidableEq, Repr

/-- generate_nonces (src/crypto/key.rs lines 149-189). The source slices the
first NONCE_SIZE = 24 bytes of each 32-byte digest; the error branch for a
too-short digest is unreachable and the Result wrapper is dropped. -/
def generate_nonces (sent_msg recv_msg : List Nat) (incoming : Bool) : NoncePair :=
  let p := if incoming then (recv_msg, sent_msg) else (sent_msg, recv_msg)
  let nonce_init_to_resp :=
    List.take 24 (digest_256 (p.1 ++ p.2 ++ INIT_TO_RESP_SEED))
  let nonce_resp_to_init :=
    List.take 24 (digest_256 (p.1 ++ p.2 ++ RESP_TO_INIT_SEED))
  if incoming then
    ⟨Nonce.new nonce_init_to_resp, Nonce.new nonce_resp_to_init⟩
  else
    ⟨Nonce.new nonce_resp_to_init, Nonce.new nonce_init_to_resp⟩

/-! # Key primitives (src/crypto/key.rs) -/

/-- CryptoError (src/crypto/key.rs lines 14-22). -/
inductive CryptoError where
  | InvalidKeySize : Nat → Nat → CryptoError
  | InvalidKey : String → CryptoError
  | FailedToDecrypt : CryptoError
deriving DecidableEq, Repr

/-- ensure_crypto_key_bytes — reject any buffer whose length is not
CRYPTO_KEY_SIZE = 32, otherwise pass the 32 bytes through. -/
def ensure_crypto_key_bytes (buf : List Nat) : Except CryptoError (List Nat) :=
  if buf.length ≠ 32 then
    .error (.InvalidKeySize 32 buf.length)
  else
    .ok buf

/-- Wrapper around a 32-byte box public key. -/
structure PublicKey where
  bytes : List Nat
deriving DecidableEq, Repr

/-- PublicKey::from_bytes. -/
def PublicKey.from_bytes (buf : List Nat) : Except CryptoError PublicKey :=
  (ensure_crypto_key_bytes buf).map PublicKey.mk

/-- Wrapper around a 32-byte box secret key. -/
structure SecretKey where
  bytes : List Nat
deriving DecidableEq, Repr

/-- SecretKey::from_bytes. -/
def SecretKey.from_bytes (buf : List Nat) : Except CryptoError SecretKey :=
  (ensure_crypto_key_bytes buf).map SecretKey.mk

/-! # Peer crypto session (src/crypto/peer_crypto.rs)

The precomputed key is Curve25519 material computed by the external sodium
library; it is carried as an inert value of an arbitrary type K, and the box
seal/open primitives are likewise parameters. -/

/-- PeerCrypto — one precomputed key and one nonce pair. -/
structure PeerCrypto (K : Type) where
  precomputed_key : K
  nonce_pair : NoncePair

/-- PeerCrypto::local_nonce_fetch_increment — store the incremented local
nonce, return the previous one (mem::replace). -/
def PeerCrypto.local_nonce_fetch_increment {K : Type} (pc : PeerCrypto K) :
    Nonce × PeerCrypto K :=
  let nonce := pc.nonce_pair.«local».increment
  (pc.nonce_pair.«local»,
    { pc with nonce_pair := { pc.nonce_pair with «local» := nonce } })

/-- PeerCrypto::remote_nonce_fetch_increment — store the incremented remote
nonce, return the previous one. -/
def PeerCrypto.remote_nonce_fetch_increment {K : Type} (pc : PeerCrypto K) :
    Nonce × PeerCrypto K :=
  let nonce := pc.nonce_pair.remote.increment
  (pc.nonce_pair.remote,
    { pc with nonce_pair := { pc.nonce_pair with remote := nonce } })

/-- PeerCrypto::encrypt — fetch-and-increment the local nonce, then seal with
the precomputed key and the fetched (pre-increment) nonce. `sealBox` stands for
sodium box_::seal_precomputed (key, nonce bytes, message). -/
def PeerCrypto.encrypt {K : Type} (sealBox : K → List Nat → List Nat → List Nat)
    (pc : PeerCrypto K) (data : List Nat) : List Nat × PeerCrypto K :=
  let fetched := pc.local_nonce_fetch_increment
  (sealBox pc.precomputed_key fetched.1.get_bytes data, fetched.2)

/-- PeerCrypto::decrypt — fetch-and-increment the remote nonce, then open with
the precomputed key and the fetched (pre-increment) nonce. `openBox` stands
for sodium box_::open_precomputed; its failure is reported as
FailedToDecrypt. -/
def PeerCrypto.decrypt {K : Type}
    (openBox : K → List Nat → List Nat → Option (List Nat))
    (pc : PeerCrypto K) (data : List Nat) :
    Except CryptoError (List Nat) × PeerCrypto K :=
  let fetched := pc.remote_nonce_fetch_increment
  (match openBox pc.precomputed_key fetched.1.get_bytes data with
    | some msg => .ok msg
    | none => .error .FailedToDecrypt,
   fetched.2)

/-! # Messages (src/msgs) -/

/-- NetworkVersion (src/msgs/connection.rs). The chain name is carried as its
UTF-8 byte list. -/
structure NetworkVersion where
  chain_name_length : Nat
  chain_name : List Nat
  distributed_db_version : Nat
  p2p_version : Nat
deriving DecidableEq, Repr

/-- NetworkVersion::new — chain_name_length is the byte length of the chain
name, truncated by the `as u16` cast. -/
def NetworkVersion.new (chain_name : List Nat) (ddb p2p : Nat) : NetworkVersion :=
  ⟨chain_name.length % 65536, chain_name, ddb, p2p⟩

/-- ConnectionMessage (src/msgs/connection.rs). -/
structure ConnectionMessage where
  port : Nat
  public_key : List Nat
  proof_of_work_stamp : List Nat
  message_nonce : List Nat
  version_length : Nat
  version : NetworkVersion
deriving DecidableEq, Repr

/-- ConnectionMessage::new — version_length is always written as 0. -/
def ConnectionMessage.new (port : Nat) (public_key proof_of_work_stamp message_nonce : List Nat)
    (version : NetworkVersion) : ConnectionMessage :=
  ⟨port, public_key, proof_of_work_stamp, message_nonce, 0, version⟩

/-- MetadataMessage (src/msgs/metadata.rs). -/
structure MetadataMessage where
  disable_mempool : Bool
  private_node : Bool
deriving DecidableEq, Repr

/-- MetadataMessage::new. -/
def MetadataMessage.new (disable_mempool private_node : Bool) : MetadataMessage :=
  ⟨disable_mempool, private_node⟩

/-- Modelled from the spec: the speedy-derived decoder for MetadataMessage
(the speedy crate is external). Per the spec's wire table the message is two
single-byte boolean fields; a buffer shorter than two bytes is truncated input
and fails, a nonzero flag byte reads as true. -/
def MetadataMessage.read_from_buffer : List Nat → Option MetadataMessage
  | b0 :: b1 :: _ => some ⟨b0 ≠ 0, b1 ≠ 0⟩
  | _ => none

/-- AckStatus (src/msgs/ack.rs) — wire-tagged enumeration. -/
inductive AckStatus where
  | Ack : AckStatus
  | NackV1 : AckStatus
  | NackV2 : AckStatus
deriving DecidableEq, Repr

/-- The speedy-derived encoder for AckStatus: exactly the one declared tag
byte per variant (tag_type u8; Ack = 0x00, NackV1 = 0xFF, NackV2 = 0x01). -/
def AckStatus.write_to_vec : AckStatus → List Nat
  | .Ack => [0x00]
  | .NackV1 => [0xFF]
  | .NackV2 => [0x01]

/-- The speedy-derived decoder for AckStatus: the leading byte must be one of
the three declared tags, any other tag byte (or an empty buffer) is a codec
error. -/
def AckStatus.read_from_buffer : List Nat → Option AckStatus
  | b :: _ =>
    if b = 0x00 then some .Ack
    else if b = 0xFF then some .NackV1
    else if b = 0x01 then some .NackV2
    else none
  | [] => none

/-! # Peer (src/p2p/peer.rs) -/

/-- PeerError (src/p2p/peer.rs lines 34-50). The io::Error, speedy::Error and
Blake2bError payloads are abstracted away. -/
inductive PeerError where
  | Io : PeerError
  | ConnectionFailed : PeerError
  | AckFailed : PeerError
  | SpeedyFailed : PeerError
  | BuildPeerCryptoFailed : PeerError
  | PeerCryptoNotInitialized : PeerError
  | CryptoFailed : CryptoError → PeerError
deriving DecidableEq, Repr

/-- A remote transport endpoint (std::net::SocketAddr): an address and a
16-bit port. -/
structure SocketAddr where
  ip : String
  port : Nat
deriving DecidableEq, Repr

/-- Identity (src/crypto/identity.rs) — the fields the handshake uses, as raw
byte lists. -/
structure Identity where
  peer_id : String
  public_key : List Nat
  secret_key : List Nat
  proof_of_work_stamp : List Nat
deriving DecidableEq, Repr

/-- The Peer fields the handshake message construction reads: `socket` is the
remote address handed to Peer::connect, `identity` this node's identity,
`chain_name` the target chain as UTF-8 bytes. -/
structure Peer where
  socket : SocketAddr
  identity : Identity
  chain_name : List Nat
deriving DecidableEq, Repr

/-- Peer::connect — record the remote socket address, identity and chain name
(stream setup elided). -/
def Peer.connect (socket : SocketAddr) (identity : Identity) (chain_name : List Nat) : Peer :=
  ⟨socket, identity, chain_name⟩

/-- Step 1 of Peer::handshake (src/p2p/peer.rs lines 93-99): the
ConnectionMessage built and sent. The freshly randomized nonce is passed
explicitly. -/
def handshake_connection_msg (p : Peer) (nonce : Nonce) : ConnectionMessage :=
  ConnectionMessage.new p.socket.port p.identity.public_key p.identity.proof_of_work_stamp
    nonce.get_bytes (NetworkVersion.new p.chain_name 2 1)

/-- Outcome of one handshake step: a value, a typed PeerError returned to the
caller, or a process panic with its message. -/
inductive Outcome (α : Type) where
  | ok : α → Outcome α
  | err : PeerError → Outcome α
  | panicked : String → Outcome α
deriving DecidableEq, Repr

/-- The receive-metadata step of Peer::handshake (src/p2p/peer.rs lines
141-143): the parse result is unwrapped with expect, so a parse failure is a
panic, not a returned PeerError. -/
def recv_metadata_step (bytes : List Nat) : Outcome MetadataMessage :=
  match MetadataMessage.read_from_buffer bytes with
  | some m => .ok m
  | none => .panicked "Failed to parse metadata message"

/-- The receive-ack step of Peer::handshake (src/p2p/peer.rs lines 156-162):
the parse result is unwrapped with expect (a parse failure is a panic), and a
decoded status other than Ack returns PeerError::AckFailed. -/
def recv_ack_step (bytes : List Nat) : Outcome AckStatus :=
  match AckStatus.read_from_buffer bytes with
  | some a => if a = AckStatus.Ack then .ok a else .err .AckFailed
  | none => .panicked "Failed to parse ack message"

/-- msg_bytes_to_raw (src/p2p/peer.rs lines 211-216): prepend the payload
length, cast to u16 and written as two big-endian bytes. -/
def msg_bytes_to_raw (content : List Nat) : List Nat :=
  (content.length % 65536) / 256 :: (content.length % 65536) % 256 :: content

/-- Peer::recv_msg (src/p2p/peer.rs lines 186-208) over an explicit incoming
byte stream: read a 2-byte big-endian length, read that many payload bytes
(too few is an I/O error), and if encryption is on and the payload is
non-empty, decrypt it with the installed crypto session (its absence is
PeerCryptoNotInitialized). Returns the result together with the session state
after the call. -/
def Peer.recv_msg {K : Type} (openBox : K → List Nat → List Nat → Option (List Nat))
    (pc : Option (PeerCrypto K)) (stream : List Nat) (encryption : Bool) :
    Except PeerError (List Nat) × Option (PeerCrypto K) :=
  match stream with
  | b0 :: b1 :: rest =>
    let mlen := b0 * 256 + b1
    if rest.length < mlen then (.error .Io, pc)
    else
      let buffer := rest.take mlen
      if encryption && !buffer.isEmpty then
        match pc with
        | some c =>
          let fetched := c.remote_nonce_fetch_increment
          (match openBox c.precomputed_key fetched.1.get_bytes buffer with
            | some msg => .ok msg
            | none => .error (.CryptoFailed .FailedToDecrypt),
           some fetched.2)
        | none => (.error .PeerCryptoNotInitialized, pc)
      else
        (.ok buffer, pc)
  | _ => (.error .Io, pc)

/-! # Claim theorems -/

/-- Claim C10: msg_bytes_to_raw frames every payload with a 2-byte big-endian
prefix holding the payload length reduced modulo 2^16, followed by the full
payload; for a payload of 65536 bytes or more the prefix no longer equals the
number of payload bytes that follow. -/
theorem claim_C10 (content : List Nat) :
    256 * ((msg_bytes_to_raw content).getD 0 0) + (msg_bytes_to_raw content).getD 1 0 =
      content.length % 65536 ∧
    (msg_bytes_to_raw content).drop 2 = content ∧
    (65536 ≤ content.length →
      256 * ((msg_bytes_to_raw content).getD 0 0) + (msg_bytes_to_raw content).getD 1 0 ≠
        content.length) := by
  refine ⟨?_, rfl, ?_⟩
  · simp only [msg_bytes_to_raw, List.getD_cons_zero, List.getD_cons_succ]
    omega
  · intro hlen
    simp only [msg_bytes_to_raw, List.getD_cons_zero, List.getD_cons_succ]
    have := Nat.mod_lt content.length (show 0 < 65536 by norm_num)
    omega

/-- Witness for claim C10 at a 65536-byte payload: the length prefix wraps to
zero and no longer matches the payload length. -/
theorem claim_C10_witness :
    65536 ≤ (List.replicate 65536 0).length ∧
    256 * ((msg_bytes_to_raw (List.replicate 65536 0)).getD 0 0) +
        (msg_bytes_to_raw (List.replicate 65536 0)).getD 1 0 ≠
      (List.replicate 65536 0).length :=
  ⟨by rw [List.length_replicate],
   (claim_C10 (List.replicate 65536 0)).2.2 (by rw [List.length_replicate])⟩

/-- Claim C8: the AckStatus codec writes exactly the one-byte tags 0x00 for
Ack, 0xFF for NackV1 and 0x01 for NackV2; decoding maps exactly those three
tag bytes back to the corresponding variants, and any other leading tag byte
(or an empty buffer) fails to decode. -/
theorem claim_C8 :
    AckStatus.write_to_vec .Ack = [0x00] ∧
    AckStatus.write_to_vec .NackV1 = [0xFF] ∧
    AckStatus.write_to_vec .NackV2 = [0x01] ∧
    (∀ rest : List Nat,
      AckStatus.read_from_buffer (0x00 :: rest) = some .Ack ∧
      AckStatus.read_from_buffer (0xFF :: rest) = some .NackV1 ∧
      AckStatus.read_from_buffer (0x01 :: rest) = some .NackV2) ∧
    (∀ (b : Nat) (rest : List Nat), b ≠ 0x00 → b ≠ 0xFF → b ≠ 0x01 →
      AckStatus.read_from_buffer (b :: rest) = none) ∧
    AckStatus.read_from_buffer [] = none := by
  refine ⟨rfl, rfl, rfl, fun rest => ⟨rfl, rfl, rfl⟩, ?_, rfl⟩
  intro b rest hb0 hbff hb1
  simp [AckStatus.read_from_buffer, hb0, hbff, hb1]

/-- Witness for claim C8 at the concrete tag byte 0x02, which is none of the
three declared tags and is rejected. -/
theorem claim_C8_witness :
    AckStatus.read_from_buffer [0x02] = none :=
  claim_C8.2.2.2.2.1 2 [] (by decide) (by decide) (by decide)

/-- Claim C7: PublicKey::from_bytes and SecretKey::from_bytes fail with
InvalidKeySize (expected 32, actual the buffer length) exactly when the buffer
length is not 32, and succeed on every 32-byte buffer, wrapping the bytes with
no further validation. -/
theorem claim_C7 (buf : List Nat) :
    (PublicKey.from_bytes buf = .error (.InvalidKeySize 32 buf.length) ↔ buf.length ≠ 32) ∧
    (SecretKey.from_bytes buf = .error (.InvalidKeySize 32 buf.length) ↔ buf.length ≠ 32) ∧
    (buf.length = 32 →
      PublicKey.from_bytes buf = .ok ⟨buf⟩ ∧ SecretKey.from_bytes buf = .ok ⟨buf⟩) := by
  by_cases h : buf.length = 32 <;>
    simp [PublicKey.from_bytes, SecretKey.from_bytes, ensure_crypto_key_bytes, h, Except.map]

/-- Witness for claim C7: a 31-byte buffer fails with the size-mismatch error
reporting expected 32, a 32-byte buffer succeeds. -/
theorem claim_C7_witness :
    PublicKey.from_bytes (List.replicate 31 0) =
      .error (.InvalidKeySize 32 (List.replicate 31 0).length) ∧
    SecretKey.from_bytes (List.replicate 32 7) = .ok ⟨List.replicate 32 7⟩ :=
  ⟨(claim_C7 (List.replicate 31 0)).1.mpr (by rw [List.length_replicate]; omega),
   ((claim_C7 (List.replicate 32 7)).2.2 (by rw [List.length_replicate])).2⟩

/-- Claim C5: PeerCrypto::encrypt seals with the pre-increment local nonce and
stores its increment as the new local nonce, leaving the remote nonce and the
precomputed key unchanged; PeerCrypto::decrypt is the symmetric operation on
the remote nonce, leaving the local nonce and the key unchanged. -/
theorem claim_C5 (K : Type) (sealBox : K → List Nat → List Nat → List Nat)
    (openBox : K → List Nat → List Nat → Option (List Nat))
    (pc : PeerCrypto K) (data : List Nat) :
    (PeerCrypto.encrypt sealBox pc data).1 =
      sealBox pc.precomputed_key pc.nonce_pair.«local».get_bytes data ∧
    (PeerCrypto.encrypt sealBox pc data).2.nonce_pair.«local» =
      pc.nonce_pair.«local».increment ∧
    (PeerCrypto.encrypt sealBox pc data).2.nonce_pair.remote = pc.nonce_pair.remote ∧
    (PeerCrypto.encrypt sealBox pc data).2.precomputed_key = pc.precomputed_key ∧
    (PeerCrypto.decrypt openBox pc data).1 =
      (match openBox pc.precomputed_key pc.nonce_pair.remote.get_bytes data with
        | some msg => .ok msg
        | none => .error .FailedToDecrypt) ∧
    (PeerCrypto.decrypt openBox pc data).2.nonce_pair.remote =
      pc.nonce_pair.remote.increment ∧
    (PeerCrypto.decrypt openBox pc data).2.nonce_pair.«local» = pc.nonce_pair.«local» ∧
    (PeerCrypto.decrypt openBox pc data).2.precomputed_key = pc.precomputed_key :=
  ⟨rfl, rfl, rfl, rfl, rfl, rfl, rfl, rfl⟩

/-- Counterexample to claim C2: two peers built from the same node
configuration (identity and chain name) but different remote socket addresses
send ConnectionMessages with different port fields — the value 9732 or 1000 is
the remote peer's port taken from the address handed to Peer::connect, so the
port field is not a listening port of this node. -/
theorem claim_C2_counterexample :
    (handshake_connection_msg
      (Peer.connect ⟨"127.0.0.1", 9732⟩ ⟨"id", [1], [2], [3]⟩ [84])
      (Nonce.new (List.replicate 24 0))).port = 9732 ∧
    (handshake_connection_msg
      (Peer.connect ⟨"127.0.0.1", 1000⟩ ⟨"id", [1], [2], [3]⟩ [84])
      (Nonce.new (List.replicate 24 0))).port = 1000 ∧
    (9732 : Nat) ≠ 1000 :=
  ⟨rfl, rfl, by omega⟩

/-- Claim C2 (amended): the ConnectionMessage built and sent in step 1 of
Peer::handshake carries the remote peer's port (the port of the socket address
given to Peer::connect) in its port field, together with the identity's public
key, its proof-of-work stamp, the freshly randomized message nonce, a zero
version_length, and a NetworkVersion naming the target chain with
distributed_db_version 2 and p2p_version 1. -/
theorem claim_C2 (p : Peer) (nonce : Nonce) :
    handshake_connection_msg p nonce =
      ⟨p.socket.port, p.identity.public_key, p.identity.proof_of_work_stamp,
        nonce.get_bytes, 0, ⟨p.chain_name.length % 65536, p.chain_name, 2, 1⟩⟩ :=
  rfl

/-- Counterexample to claim C1: it is not the case that whenever the received
MetadataMessage or acknowledgement fails to parse the failure is reported as a
typed PeerError result — at the empty buffer both steps end in a panic (the
source unwraps the parse with expect), not in an err outcome. -/
theorem claim_C1_counterexample :
    ¬ (∀ bytes : List Nat,
        (MetadataMessage.read_from_buffer bytes = none →
          ∃ e : PeerError, recv_metadata_step bytes = .err e) ∧
        (AckStatus.read_from_buffer bytes = none →
          ∃ e : PeerError, recv_ack_step bytes = .err e)) := by
  intro h
  obtain ⟨e, he⟩ := (h []).1 rfl
  simp [recv_metadata_step, MetadataMessage.read_from_buffer] at he

/-- Claim C1 (amended): when the received MetadataMessage or the received
acknowledgement fails to parse, the handshake aborts by a process panic
carrying the expect message — not by returning a typed PeerError value. -/
theorem claim_C1 (bytes : List Nat) :
    (MetadataMessage.read_from_buffer bytes = none →
      recv_metadata_step bytes = .panicked "Failed to parse metadata message") ∧
    (AckStatus.read_from_buffer bytes = none →
      recv_ack_step bytes = .panicked "Failed to parse ack message") := by
  constructor <;> intro h <;> simp [recv_metadata_step, recv_ack_step, h]

/-- Witness for claim C1 at the empty buffer, where both parses fail. -/
theorem claim_C1_witness :
    MetadataMessage.read_from_buffer [] = none ∧
    recv_metadata_step [] = .panicked "Failed to parse metadata message" ∧
    AckStatus.read_from_buffer [] = none ∧
    recv_ack_step [] = .panicked "Failed to parse ack message" :=
  ⟨rfl, (claim_C1 []).1 rfl, rfl, (claim_C1 []).2 rfl⟩

/-- Claim C9: with a crypto session installed, recv_msg with encryption on
returns the empty byte vector for a frame whose 2-byte length prefix is zero,
without consulting the box-open primitive and leaving the session (hence the
remote nonce) unchanged; whereas every frame with a nonzero length prefix (and
enough payload bytes) advances the remote nonce by exactly one increment. -/
theorem claim_C9 (K : Type) (openBox : K → List Nat → List Nat → Option (List Nat))
    (c : PeerCrypto K) (rest : List Nat) :
    Peer.recv_msg openBox (some c) (0 :: 0 :: rest) true = (.ok [], some c) ∧
    (∀ (b0 b1 : Nat) (rest2 : List Nat), b0 * 256 + b1 ≠ 0 → b0 * 256 + b1 ≤ rest2.length →
      (Peer.recv_msg openBox (some c) (b0 :: b1 :: rest2) true).2 =
        some { c with nonce_pair := { c.nonce_pair with
                  remote := c.nonce_pair.remote.increment } }) := by
  constructor
  · simp [Peer.recv_msg]
  · intro b0 b1 rest2 hne hle
    have hnotlt : ¬ rest2.length < b0 * 256 + b1 := by omega
    have htake : (rest2.take (b0 * 256 + b1)).isEmpty = false := by
      rw [List.isEmpty_eq_false_iff_exists_mem]
      rcases rest2 with _ | ⟨x, xs⟩
      · simp at hle; omega
      · exact ⟨x, by rcases h : b0 * 256 + b1 with _ | k
                     · omega
                     · simp [List.take]⟩
    simp only [Peer.recv_msg, hnotlt, if_false, htake, Bool.not_false, Bool.and_true]
    rcases hopen : openBox c.precomputed_key
        (PeerCrypto.remote_nonce_fetch_increment c).1.get_bytes
        (rest2.take (b0 * 256 + b1)) with _ | m <;>
      simp [hopen, PeerCrypto.remote_nonce_fetch_increment]

set_option maxRecDepth 100000 in
/-- Counterexample to claim C3: two nonce pairs produced from the same
(sent_msg, recv_msg) = ([0], [1]) with complementary incoming flags are not
mirror images — the two flag values hash different concatenations
([0] ++ [1] versus [1] ++ [0]), so the digests differ. -/
theorem claim_C3_counterexample :
    ¬ ((generate_nonces [0] [1] false).«local» = (generate_nonces [0] [1] true).remote ∧
       (generate_nonces [0] [1] false).remote = (generate_nonces [0] [1] true).«local») := by
  decide

/-- Claim C3 (amended): the mirror property holds between the two sessions of
one handshake, where the sent and received messages swap roles along with the
incoming flag: generate_nonces sent recv false and generate_nonces recv sent
true have the local nonce of one equal to the remote nonce of the other, and
vice versa. -/
theorem claim_C3 (sent_msg recv_msg : List Nat) :
    (generate_nonces sent_msg recv_msg false).«local» =
      (generate_nonces recv_msg sent_msg true).remote ∧
    (generate_nonces sent_msg recv_msg false).remote =
      (generate_nonces recv_msg sent_msg true).«local» :=
  ⟨rfl, rfl⟩

/-- Each 64-bit word serializes to 8 bytes, so a word list flat-maps to 8
bytes per word. -/
theorem flatMap_toBytesLE8_length (l : List Nat) :
    (l.flatMap toBytesLE8).length = 8 * l.length := by
  induction l with
  | nil => simp
  | cons w ws ih => simp [toBytesLE8, ih]; ring

/-- The Blake2b compression function returns an 8-word state. -/
theorem blakeCompress_length (h m : List Nat) (t : Nat) (last : Bool) :
    (blakeCompress h m t last).length = 8 := by
  simp [blakeCompress]

/-- The Blake2b block loop returns an 8-word state. -/
theorem blakeLoop_length (fuel : Nat) : ∀ (h msg : List Nat) (t : Nat),
    (blakeLoop fuel h msg t).length = 8 := by
  induction fuel with
  | zero => intro h msg t; exact blakeCompress_length ..
  | succ fuel ih =>
    intro h msg t
    rw [blakeLoop]
    split
    · exact blakeCompress_length ..
    · exact ih ..

/-- A Blake2b-256 digest is exactly 32 bytes long. -/
theorem digest_256_length (msg : List Nat) : (digest_256 msg).length = 32 := by
  simp only [digest_256]
  rw [List.length_take, flatMap_toBytesLE8_length, blakeLoop_length]
  norm_num

/-- Every entry of a Blake2b-256 digest is a byte value. -/
theorem digest_256_lt (msg : List Nat) : ∀ b ∈ digest_256 msg, b < 256 := by
  intro b hb
  rw [digest_256] at hb
  have hb2 := List.mem_of_mem_take hb
  rw [List.mem_flatMap] at hb2
  obtain ⟨w, _, hw⟩ := hb2
  simp [toBytesLE8] at hw
  rcases hw with h | h | h | h | h | h | h | h <;>
    subst h <;> exact Nat.mod_lt _ (by norm_num)

/-- Nonce::new followed by Nonce::get_bytes round-trips on any even-length
list of byte values. -/
theorem nonce_new_get_bytes : ∀ (bs : List Nat), (∀ b ∈ bs, b < 256) → bs.length % 2 = 0 →
    (Nonce.new bs).get_bytes = bs
  | [], _, _ => rfl
  | [b], _, hev => by simp at hev
  | b0 :: b1 :: rest, hlt, hev => by
    have hb1 : b1 < 256 := hlt b1 (by simp)
    have h1 : (b0 * 256 + b1) / 256 = b0 := by omega
    have h2 : (b0 * 256 + b1) % 256 = b1 := by omega
    have ihh := nonce_new_get_bytes rest (fun b hb => hlt b (by simp [hb]))
      (by simp only [List.length_cons] at hev; omega)
    simp only [Nonce.new, Nonce.get_bytes, bytesToWords, List.flatMap_cons] at ihh ⊢
    rw [h1, h2, ihh]
    rfl

/-- The nonce built from the first 24 bytes of a digest serializes back to
exactly those 24 bytes. -/
theorem take24_digest_roundtrip (m : List Nat) :
    (Nonce.new (List.take 24 (digest_256 m))).get_bytes = List.take 24 (digest_256 m) :=
  nonce_new_get_bytes _ (fun b hb => digest_256_lt m b (List.mem_of_mem_take hb))
    (by rw [List.length_take, digest_256_length]; decide)

/-- Claim C4: with incoming = false, generate_nonces returns local equal to
the first 24 bytes of Blake2b-256(sent_msg ++ recv_msg ++ "Resp -> Init") and
remote equal to the first 24 bytes of
Blake2b-256(sent_msg ++ recv_msg ++ "Init -> Resp"); with incoming = true the
concatenation order is recv_msg ++ sent_msg and the local/remote assignment of
the two digests is swapped. Stated both at the Nonce level (Nonce::new of
those bytes) and at the byte level (get_bytes of the result). -/
theorem claim_C4 (sent_msg recv_msg : List Nat) :
    (generate_nonces sent_msg recv_msg false).«local» =
      Nonce.new (List.take 24 (digest_256 (sent_msg ++ recv_msg ++ RESP_TO_INIT_SEED))) ∧
    (generate_nonces sent_msg recv_msg false).remote =
      Nonce.new (List.take 24 (digest_256 (sent_msg ++ recv_msg ++ INIT_TO_RESP_SEED))) ∧
    (generate_nonces sent_msg recv_msg true).«local» =
      Nonce.new (List.take 24 (digest_256 (recv_msg ++ sent_msg ++ INIT_TO_RESP_SEED))) ∧
    (generate_nonces sent_msg recv_msg true).remote =
      Nonce.new (List.take 24 (digest_256 (recv_msg ++ sent_msg ++ RESP_TO_INIT_SEED))) ∧
    ((generate_nonces sent_msg recv_msg false).«local»).get_bytes =
      List.take 24 (digest_256 (sent_msg ++ recv_msg ++ RESP_TO_INIT_SEED)) ∧
    ((generate_nonces sent_msg recv_msg false).remote).get_bytes =
      List.take 24 (digest_256 (sent_msg ++ recv_msg ++ INIT_TO_RESP_SEED)) ∧
    ((generate_nonces sent_msg recv_msg true).«local»).get_bytes =
      List.take 24 (digest_256 (recv_msg ++ sent_msg ++ INIT_TO_RESP_SEED)) ∧
    ((generate_nonces sent_msg recv_msg true).remote).get_bytes =
      List.take 24 (digest_256 (recv_msg ++ sent_msg ++ RESP_TO_INIT_SEED)) :=
  ⟨rfl, rfl, rfl, rfl, take24_digest_roundtrip _, take24_digest_roundtrip _,
   take24_digest_roundtrip _, take24_digest_roundtrip _⟩

/-- Serializing a word list with get_bytes and reading the bytes big-endian
computes the same value as reading the words big-endian. -/
theorem bytesBE_get_bytes : ∀ (ws : List Nat) (acc : Nat),
    List.foldl (fun a b => a * 256 + b) acc (Nonce.get_bytes ⟨ws⟩) =
    List.foldl (fun a w => a * 65536 + w) acc ws := by
  intro ws
  induction ws with
  | nil => intro acc; simp [Nonce.get_bytes]
  | cons w ws ih =>
    intro acc
    simp only [Nonce.get_bytes, List.flatMap_cons, List.foldl_append, List.foldl_cons,
      List.foldl_nil] at ih ⊢
    rw [ih]
    have h : (acc * 256 + w / 256) * 256 + w % 256 = acc * 65536 + w := by omega
    rw [h]

/-- The big-endian value of a word list is the little-endian value of its
reversal. -/
theorem wordsBE_reverse (ws : List Nat) : wordsBEtoNat ws = wordsLEtoNat ws.reverse := by
  induction ws using List.reverseRecOn with
  | nil => rfl
  | append_singleton l a ih =>
    show List.foldl (fun a w => a * 65536 + w) 0 (l ++ [a]) = _
    rw [List.foldl_append, List.reverse_append]
    simp only [List.foldl_cons, List.foldl_nil, List.reverse_cons, List.reverse_nil,
      List.nil_append, List.singleton_append]
    show wordsBEtoNat l * 65536 + a = wordsLEtoNat (a :: l.reverse)
    rw [wordsLEtoNat, ih]
    ring

/-- A list of 16-bit words denotes a value below 65536 to the power of its
length. -/
theorem wordsLE_lt : ∀ (ws : List Nat), (∀ w ∈ ws, w < 65536) →
    wordsLEtoNat ws < 65536 ^ ws.length := by
  intro ws
  induction ws with
  | nil => intro _; decide
  | cons w ws ih =>
    intro hlt
    have hw : w < 65536 := hlt w (by simp)
    have hv := ih (fun x hx => hlt x (by simp [hx]))
    simp only [wordsLEtoNat, List.length_cons]
    calc w + 65536 * wordsLEtoNat ws < 65536 * (wordsLEtoNat ws + 1) := by omega
      _ ≤ 65536 * 65536 ^ ws.length := Nat.mul_le_mul_left _ hv
      _ = 65536 ^ (ws.length + 1) := (pow_succ' 65536 ws.length).symm

/-- The increment loop realizes adding one modulo 65536 to the power of the
word count, on little-endian word lists of 16-bit words. -/
theorem incWordsLE_val : ∀ (ws : List Nat), (∀ w ∈ ws, w < 65536) →
    wordsLEtoNat (incWordsLE ws) = (wordsLEtoNat ws + 1) % 65536 ^ ws.length := by
  intro ws
  induction ws with
  | nil => intro _; decide
  | cons w ws ih =>
    intro hlt
    have hw : w < 65536 := hlt w (by simp)
    have hv := wordsLE_lt ws (fun x hx => hlt x (by simp [hx]))
    by_cases h : w + 1 < 65536
    · simp only [incWordsLE, if_pos h, wordsLEtoNat, List.length_cons]
      have hb : w + 65536 * wordsLEtoNat ws + 1 < 65536 ^ (ws.length + 1) := by
        calc w + 65536 * wordsLEtoNat ws + 1 < 65536 * (wordsLEtoNat ws + 1) := by omega
          _ ≤ 65536 * 65536 ^ ws.length := Nat.mul_le_mul_left _ hv
          _ = 65536 ^ (ws.length + 1) := (pow_succ' 65536 ws.length).symm
      rw [Nat.mod_eq_of_lt hb]
      omega
    · have hw1 : w = 65535 := by omega
      simp only [incWordsLE, if_neg h, wordsLEtoNat, List.length_cons]
      rw [ih (fun x hx => hlt x (by simp [hx]))]
      subst hw1
      have he : (65535 : Nat) + 65536 * wordsLEtoNat ws + 1 = 65536 * (wordsLEtoNat ws + 1) := by
        ring
      rw [he, pow_succ' 65536 ws.length, Nat.mul_mod_mul_left]
      omega

/-- Claim C6: for a wellformed Nonce (12 words, each below 2^16), interpreting
get_bytes as a 192-bit big-endian unsigned integer, Nonce::increment denotes
adding one modulo 2^192 — carries propagate leftward and overflow past the
first word is dropped, wrapping the counter to all-zero from the maximum. -/
theorem claim_C6 (n : Nonce) (hlen : n.value.length = 12)
    (hlt : ∀ w ∈ n.value, w < 65536) :
    bytesBEtoNat n.increment.get_bytes = (bytesBEtoNat n.get_bytes + 1) % 2 ^ 192 := by
  obtain ⟨ws⟩ := n
  simp only at hlen hlt
  show bytesBEtoNat (Nonce.get_bytes ⟨(incWordsLE ws.reverse).reverse⟩) = _
  have h1 : bytesBEtoNat (Nonce.get_bytes ⟨(incWordsLE ws.reverse).reverse⟩) =
      wordsBEtoNat ((incWordsLE ws.reverse).reverse) := bytesBE_get_bytes _ 0
  have h2 : bytesBEtoNat (Nonce.get_bytes ⟨ws⟩) = wordsBEtoNat ws := bytesBE_get_bytes _ 0
  rw [h1, h2, wordsBE_reverse, List.reverse_reverse,
    incWordsLE_val ws.reverse (fun w hw => hlt w (List.mem_reverse.mp hw)),
    List.length_reverse, hlen, ← wordsBE_reverse]
  norm_num

/-- Witness for claim C6 at the all-ones nonce (every word 0xFFFF), whose
increment wraps to the all-zero nonce. -/
theorem claim_C6_witness :
    (Nonce.mk (List.replicate 12 65535)).value.length = 12 ∧
    (∀ w ∈ (Nonce.mk (List.replicate 12 65535)).value, w < 65536) ∧
    bytesBEtoNat (Nonce.mk (List.replicate 12 65535)).increment.get_bytes =
      (bytesBEtoNat (Nonce.mk (List.replicate 12 65535)).get_bytes + 1) % 2 ^ 192 :=
  ⟨by decide, by decide, claim_C6 _ (by decide) (by decide)⟩

/-- Witness for claim C9 with a concrete session: a zero-length encrypted
frame leaves the session untouched, a one-byte encrypted frame advances the
remote nonce by one increment. -/
theorem claim_C9_witness :
    Peer.recv_msg (fun (_ : Unit) _ _ => some [9])
        (some ⟨(), ⟨Nonce.new (List.replicate 24 0), Nonce.new (List.replicate 24 0)⟩⟩)
        (0 :: 0 :: []) true =
      (.ok [], some ⟨(), ⟨Nonce.new (List.replicate 24 0), Nonce.new (List.replicate 24 0)⟩⟩) ∧
    (0 * 256 + 1 ≠ 0 ∧ 0 * 256 + 1 ≤ ([5] : List Nat).length) ∧
    (Peer.recv_msg (fun (_ : Unit) _ _ => some [9])
        (some ⟨(), ⟨Nonce.new (List.replicate 24 0), Nonce.new (List.replicate 24 0)⟩⟩)
        (0 :: 1 :: [5]) true).2 =
      some ⟨(), ⟨Nonce.new (List.replicate 24 0),
        (Nonce.new (List.replicate 24 0)).increment⟩⟩ :=
  ⟨(claim_C9 Unit (fun _ _ _ => some [9])
      ⟨(), ⟨Nonce.new (List.replicate 24 0), Nonce.new (List.replicate 24 0)⟩⟩ []).1,
   ⟨by decide, by decide⟩,
   (claim_C9 Unit (fun _ _ _ => some [9])
      ⟨(), ⟨Nonce.new (List.replicate 24 0), Nonce.new (List.replicate 24 0)⟩⟩ []).2
     0 1 [5] (by decide) (by decide)⟩
